import Mathlib

/-!
Verification of the personal-finance-tracker core (src/app.py) against its
specification.  Python strings are modelled as lists of characters, pandas
cells as `Option Str` (`none` models NaN), amounts as exact rationals, and
fallible Python code as `Option`/`Except` values (`none`/`error` models a
raised exception).
-/

set_option maxRecDepth 4000

namespace PFT

/-- Python strings are modelled as lists of characters. -/
abbrev Str := List Char

/-- The whitespace characters stripped by Python's str.strip and float(). -/
def isWsChar (c : Char) : Bool :=
  c == '\t' || c == '\n' || c == '\x0b' || c == '\x0c' || c == '\r' || c == ' '

/-- Drop trailing whitespace, modelling the right half of str.strip(). -/
def dropTrail (s : Str) : Str :=
  (s.reverse.dropWhile isWsChar).reverse

/-- Model of Python str.strip(): remove leading and trailing whitespace. -/
def trimWs (s : Str) : Str :=
  dropTrail (s.dropWhile isWsChar)

/-- Interpret a list of ASCII digit characters as a base-10 natural number. -/
def natOfDigits (s : Str) : Nat :=
  s.foldl (fun n c => 10 * n + (c.toNat - 48)) 0

/-- Join a list of strings with a single-character separator, modelling
Python sep.join(parts). -/
def joinSep (sep : Char) : List Str → Str
  | [] => []
  | [g] => g
  | g :: gs => g ++ sep :: joinSep sep gs

/-- UTF-8 encoding of one character (models Python str.encode behaviour
per code point). -/
def utf8Char (c : Char) : List Nat :=
  let n := c.toNat
  if n < 128 then [n]
  else if n < 2048 then [192 + n / 64, 128 + n % 64]
  else if n < 65536 then [224 + n / 4096, 128 + n / 64 % 64, 128 + n % 64]
  else [240 + n / 262144, 128 + n / 4096 % 64, 128 + n / 64 % 64, 128 + n % 64]

/-- UTF-8 encoding of a string as a byte list, modelling s.encode in Python. -/
def utf8Encode (s : Str) : List Nat :=
  (s.map utf8Char).flatten

/-! ### SHA-256 (models hashlib.sha256)

A faithful executable implementation of FIPS 180-4 SHA-256 over byte lists,
with 32-bit words represented as naturals reduced modulo 2^32.
-/

/-- Truncate to a 32-bit word. -/
def w32 (n : Nat) : Nat := n % 4294967296

/-- Right-rotation of a 32-bit word. -/
def rotr (n x : Nat) : Nat :=
  w32 (x / 2 ^ n + x % 2 ^ n * 2 ^ (32 - n))

/-- Logical right shift of a 32-bit word. -/
def shr (n x : Nat) : Nat := x / 2 ^ n

/-- Bitwise complement of a 32-bit word. -/
def not32 (x : Nat) : Nat := Nat.xor x 4294967295

def shaCh (e f g : Nat) : Nat := Nat.xor (Nat.land e f) (Nat.land (not32 e) g)

def shaMaj (a b c : Nat) : Nat :=
  Nat.xor (Nat.xor (Nat.land a b) (Nat.land a c)) (Nat.land b c)

def bigSigma0 (x : Nat) : Nat := Nat.xor (Nat.xor (rotr 2 x) (rotr 13 x)) (rotr 22 x)

def bigSigma1 (x : Nat) : Nat := Nat.xor (Nat.xor (rotr 6 x) (rotr 11 x)) (rotr 25 x)

def smallSigma0 (x : Nat) : Nat := Nat.xor (Nat.xor (rotr 7 x) (rotr 18 x)) (shr 3 x)

def smallSigma1 (x : Nat) : Nat := Nat.xor (Nat.xor (rotr 17 x) (rotr 19 x)) (shr 10 x)

/-- The 64 SHA-256 round constants. -/
def K256 : List Nat :=
  [1116352408, 1899447441, 3049323471, 3921009573, 961987163,
   1508970993, 2453635748, 2870763221, 3624381080, 310598401,
   607225278, 1426881987, 1925078388, 2162078206, 2614888103,
   3248222580, 3835390401, 4022224774, 264347078, 604807628,
   770255983, 1249150122, 1555081692, 1996064986, 2554220882,
   2821834349, 2952996808, 3210313671, 3336571891, 3584528711,
   113926993, 338241895, 666307205, 773529912, 1294757372,
   1396182291, 1695183700, 1986661051, 2177026350, 2456956037,
   2730485921, 2820302411, 3259730800, 3345764771, 3516065817,
   3600352804, 4094571909, 275423344, 430227734, 506948616,
   659060556, 883997877, 958139571, 1322822218, 1537002063,
   1747873779, 1955562222, 2024104815, 2227730452, 2361852424,
   2428436474, 2756734187, 3204031479, 3329325298]

/-- The SHA-256 initial hash value. -/
def H256 : List Nat :=
  [1779033703, 3144134277, 1013904242,
   2773480762, 1359893119, 2600822924,
   528734635, 1541459225]

/-- Big-endian 8-byte encoding of a natural number. -/
def be64 (n : Nat) : List Nat :=
  (List.range 8).map fun i => n / 2 ^ (8 * (7 - i)) % 256

/-- SHA-256 message padding: append 0x80, zero bytes and the 64-bit
big-endian bit length, reaching a multiple of 64 bytes. -/
def shaPad (msg : List Nat) : List Nat :=
  msg ++ 128 :: List.replicate ((64 - (msg.length + 9) % 64) % 64) 0 ++ be64 (8 * msg.length)

/-- Split a padded message into 64-byte blocks. -/
def toBlocks (l : List Nat) : List (List Nat) :=
  (List.range (l.length / 64)).map fun i => (l.drop (64 * i)).take 64

/-- Combine four bytes into one big-endian 32-bit word. -/
def bytesToWord (bs : List Nat) : Nat :=
  bs.foldl (fun a b => a * 256 + b) 0

/-- The 64-entry message schedule of one block. -/
def schedule (block : List Nat) : List Nat :=
  let w16 := (List.range 16).map fun i => bytesToWord ((block.drop (4 * i)).take 4)
  (List.range 48).foldl
    (fun ws _ =>
      let n := ws.length
      ws ++ [w32 (smallSigma1 (ws.getD (n - 2) 0) + ws.getD (n - 7) 0 +
                  smallSigma0 (ws.getD (n - 15) 0) + ws.getD (n - 16) 0)])
    w16

/-- The eight working registers of the compression function. -/
structure Regs where
  a : Nat
  b : Nat
  c : Nat
  d : Nat
  e : Nat
  f : Nat
  g : Nat
  h : Nat

/-- One round of the SHA-256 compression function. -/
def shaStep (r : Regs) (kw : Nat × Nat) : Regs :=
  let t1 := w32 (r.h + bigSigma1 r.e + shaCh r.e r.f r.g + kw.1 + kw.2)
  let t2 := w32 (bigSigma0 r.a + shaMaj r.a r.b r.c)
  ⟨w32 (t1 + t2), r.a, r.b, r.c, w32 (r.d + t1), r.e, r.f, r.g⟩

/-- Process one 64-byte block, updating the eight-word hash state. -/
def compress (hs : List Nat) (block : List Nat) : List Nat :=
  let ws := schedule block
  let r0 : Regs := ⟨hs.getD 0 0, hs.getD 1 0, hs.getD 2 0, hs.getD 3 0,
                    hs.getD 4 0, hs.getD 5 0, hs.getD 6 0, hs.getD 7 0⟩
  let r := (K256.zip ws).foldl shaStep r0
  [w32 (hs.getD 0 0 + r.a), w32 (hs.getD 1 0 + r.b), w32 (hs.getD 2 0 + r.c),
   w32 (hs.getD 3 0 + r.d), w32 (hs.getD 4 0 + r.e), w32 (hs.getD 5 0 + r.f),
   w32 (hs.getD 6 0 + r.g), w32 (hs.getD 7 0 + r.h)]

/-- SHA-256 of a byte list, as eight 32-bit words. -/
def sha256 (msg : List Nat) : List Nat :=
  (toBlocks (shaPad msg)).foldl compress H256

/-- Lower-case hexadecimal digit for a value below 16. -/
def hexDigit (n : Nat) : Char :=
  if n < 10 then Char.ofNat (48 + n) else Char.ofNat (87 + n)

/-- Eight-digit hexadecimal rendering of one 32-bit word. -/
def wordHex (w : Nat) : Str :=
  (List.range 8).map fun i => hexDigit (w / 16 ^ (7 - i) % 16)

/-- Model of hashlib.sha256(bytes).hexdigest(): 64 lower-case hex digits. -/
def sha256hex (msg : List Nat) : Str :=
  ((sha256 msg).map wordHex).flatten

/-- Embedding of create_transaction_hash (src/app.py): join the row's
string values with the pipe delimiter, UTF-8 encode, and take the SHA-256
hex digest. -/
def create_transaction_hash (rowValues : List Str) : Str :=
  sha256hex (utf8Encode (joinSep '|' rowValues))

/-! ### German amount parsing (models parse_german_amount in src/app.py)

A pandas cell of the dtype=str amount column is `Option Str` (`none`
models NaN for a missing field).  The parser returns `Option Rat`; `none`
models a float() ValueError propagating out of parse_german_amount.
-/

/-- Is this character the dot separator? -/
def isDot (c : Char) : Bool := c == '.'

/-- Model of Python float() applied to a finite decimal string literal:
strip whitespace, take an optional sign, then digits with at most one
dot (and at least one digit overall).  Exponents, inf/nan and underscore
grouping never arise from the inputs this program feeds to float() and
are not modelled. -/
def pyFloat (cs : Str) : Option Rat :=
  let t := trimWs cs
  let neg := t.head? == some '-'
  let pos := t.head? == some '+'
  let t2 := if neg || pos then t.tail else t
  let a := t2.takeWhile fun c => !isDot c
  let r := t2.dropWhile fun c => !isDot c
  match r with
  | [] =>
      if (!a.isEmpty) && a.all Char.isDigit then
        some (if neg then -(natOfDigits a : Rat) else (natOfDigits a : Rat))
      else none
  | _ :: b =>
      -- by construction the head of r is the first dot of t2; the value
      -- intpart + fracpart / 10 ^ length is built as one exact fraction
      if (!a.isEmpty || !b.isEmpty) && a.all Char.isDigit && b.all Char.isDigit then
        let v := mkRat (natOfDigits a * 10 ^ b.length + natOfDigits b) (10 ^ b.length)
        some (if neg then -v else v)
      else none

/-- Embedding of parse_german_amount (src/app.py): NaN or empty cells give
0.0; otherwise strip whitespace, record and remove a leading minus, remove
all dots, turn the comma into a dot, and parse; on failure retry with the
comma turned into a dot and every dot removed (i.e. both separators
stripped); `none` models the exception when that also fails. -/
def parse_german_amount (cell : Option Str) : Option Rat :=
  match cell with
  | none => some 0
  | some s =>
    if s.isEmpty then some 0
    else
      let s1 := trimWs s
      let negative := s1.head? == some '-'
      let s2 := if negative then s1.tail else s1
      let s3 := (s2.filter fun c => !isDot c).map fun c => if c == ',' then '.' else c
      match pyFloat s3 with
      | some v => some (if negative then -v else v)
      | none => pyFloat ((s.map fun c => if c == ',' then '.' else c).filter fun c => !isDot c)

/-- The shape of a German-formatted amount string: optional surrounding
whitespace, an optional leading minus, nonempty digit groups separated by
dots (thousands separators), and an optional comma-led fraction. -/
structure GermanAmt where
  ws1 : Str
  neg : Bool
  groups : List Str
  frac : Option Str
  ws2 : Str

/-- Render a `GermanAmt` as the literal amount string. -/
def renderGerman (g : GermanAmt) : Str :=
  g.ws1 ++
    ((if g.neg then ['-'] else []) ++ joinSep '.' g.groups ++
      (match g.frac with | some f => ',' :: f | none => [])) ++
    g.ws2

/-- Well-formedness of a `GermanAmt`: whitespace parts are whitespace,
digit groups are nonempty digits, the fraction (when present) is nonempty
digits. -/
def germanWF (g : GermanAmt) : Prop :=
  (∀ c ∈ g.ws1, isWsChar c = true) ∧ (∀ c ∈ g.ws2, isWsChar c = true) ∧
  g.groups ≠ [] ∧ (∀ gr ∈ g.groups, gr ≠ [] ∧ ∀ c ∈ gr, c.isDigit = true) ∧
  (∀ f, g.frac = some f → f ≠ [] ∧ ∀ c ∈ f, c.isDigit = true)

/-- The signed decimal value a well-formed German amount string denotes. -/
def germanValue (g : GermanAmt) : Rat :=
  (if g.neg then -1 else 1) *
    ((natOfDigits g.groups.flatten : Rat) +
      (match g.frac with | some f => (natOfDigits f : Rat) / 10 ^ f.length | none => 0))

/-! ### Annotation store (models load_annotations and save_annotation)

The annotation CSV file is modelled as the list of its data rows, each a
pair of transaction hash and annotation; reading the rows into a Python
dict is `load_annotations` (later rows with a duplicate hash overwrite
earlier ones, keeping the first position, exactly like dict assignment),
and `save_annotation` returns the list of rows written back.
-/

/-- The category and comment attached to a transaction hash. -/
structure Annotation where
  category : Str
  comment : Str
deriving DecidableEq, Repr, Inhabited

/-- First-match lookup in an association list, modelling Python dict
access for stores with unique keys. -/
def lookupA : List (Str × Annotation) → Str → Option Annotation
  | [], _ => none
  | p :: t, k => if p.1 = k then some p.2 else lookupA t k

/-- Python dict assignment d[k] = v: overwrite in place if the key is
present (keeping its position), otherwise append. -/
def dictSet (d : List (Str × Annotation)) (k : Str) (v : Annotation) :
    List (Str × Annotation) :=
  if (lookupA d k).isSome then d.map (fun p => if p.1 = k then (k, v) else p)
  else d ++ [(k, v)]

/-- Embedding of load_annotations (src/app.py): read the store rows into
a dict keyed by transaction hash. -/
def load_annotations (file : List (Str × Annotation)) : List (Str × Annotation) :=
  file.foldl (fun d row => dictSet d row.1 row.2) []

/-- In-place mutation of the annotation stored under one key, modelling
annotations[hash][field] = value. -/
def mapAtKey (d : List (Str × Annotation)) (k : Str) (f : Annotation → Annotation) :
    List (Str × Annotation) :=
  d.map fun p => if p.1 = k then (p.1, f p.2) else p

/-- Embedding of save_annotation (src/app.py): load the full store,
create the entry if absent with empty-string defaults, set only the
provided fields, and return the rows written back to the file. -/
def save_annotation (file : List (Str × Annotation)) (h : Str)
    (category comment : Option Str) : List (Str × Annotation) :=
  let annotations := load_annotations file
  let annotations := if (lookupA annotations h).isSome then annotations
    else annotations ++ [(h, ⟨[], []⟩)]
  let annotations := match category with
    | some c => mapAtKey annotations h fun a => ⟨c, a.comment⟩
    | none => annotations
  let annotations := match comment with
    | some c => mapAtKey annotations h fun a => ⟨a.category, c⟩
    | none => annotations
  annotations

/-- A store state has no duplicate hash keys. -/
def nodupKeys (d : List (Str × Annotation)) : Prop :=
  (d.map Prod.fst).Nodup

/-! ### Dates (models pandas.to_datetime with dayfirst=True, errors='coerce') -/

/-- A calendar date. -/
structure PDate where
  year : Nat
  month : Nat
  day : Nat
deriving DecidableEq, Repr

def leapYear (y : Nat) : Bool := y % 4 = 0 && (y % 100 ≠ 0 || y % 400 = 0)

def daysInMonth (m y : Nat) : Nat :=
  if m = 2 then (if leapYear y then 29 else 28)
  else if m = 4 || m = 6 || m = 9 || m = 11 then 30
  else 31

def validDMY (d m y : Nat) : Bool :=
  1 ≤ m && m ≤ 12 && 1 ≤ d && d ≤ daysInMonth m y

def isSepChar (c : Char) : Bool := c == '/' || c == '.' || c == '-'

def splitSepsAux : Str → Str → List Str
  | [], acc => [acc.reverse]
  | c :: t, acc =>
      if isSepChar c then acc.reverse :: splitSepsAux t [] else splitSepsAux t (c :: acc)

/-- Split a date string at slash, dot or dash separators. -/
def splitSeps (s : Str) : List Str := splitSepsAux s []

/-- Model of pandas.to_datetime(s, dayfirst=True, errors='coerce') on the
numeric date formats this ledger feeds it: three numeric components
separated by slash, dot or dash.  A four-digit first component is read
year-month-day (ISO order takes precedence over dayfirst); a four-digit
last component is read day-first, with pandas' fallback to month-first
when the day-first reading is impossible.  Anything else coerces to the
NaT sentinel (`none`); the function never raises. -/
def to_datetime_dayfirst (s : Str) : Option PDate :=
  match splitSeps (trimWs s) with
  | [a, b, c] =>
      if a.all Char.isDigit && b.all Char.isDigit && c.all Char.isDigit &&
          !a.isEmpty && !b.isEmpty && !c.isEmpty then
        if a.length = 4 then
          if validDMY (natOfDigits c) (natOfDigits b) (natOfDigits a) then
            some ⟨natOfDigits a, natOfDigits b, natOfDigits c⟩
          else none
        else if c.length = 4 then
          if validDMY (natOfDigits a) (natOfDigits b) (natOfDigits c) then
            some ⟨natOfDigits c, natOfDigits b, natOfDigits a⟩
          else if validDMY (natOfDigits b) (natOfDigits a) (natOfDigits c) then
            some ⟨natOfDigits c, natOfDigits a, natOfDigits b⟩
          else none
        else none
      else none
  | _ => none

/-! ### Binary64 amounts (models Python/NumPy float64 arithmetic)

The program stores amounts as IEEE-754 binary64 values and sums them with
float additions.  Every binary64 value is a dyadic rational, so amounts
are carried as their exact rational values, and `roundD` is the
round-to-nearest, ties-to-even rounding to a 53-bit significand that
binary64 arithmetic applies after every operation (the ledger's values
are far inside the normal range, so exponent overflow and subnormals are
not modelled).  `roundD` reproduces CPython's decimal-to-float conversion
and float addition bit for bit on this range.
-/

def bitLenAux : Nat → Nat → Nat
  | 0, _ => 0
  | f + 1, n => if n = 0 then 0 else bitLenAux f (n / 2) + 1

/-- Number of binary digits of a natural number. -/
def bitLen (n : Nat) : Nat := bitLenAux n n

/-- Round a rational to the nearest binary64 value (ties to even). -/
def roundD (q : Rat) : Rat :=
  if q = 0 then 0
  else
    let a := q.num.natAbs
    let d := q.den
    let e0 : Int := ((bitLen a : Int) - (bitLen d : Int)) - 53
    -- the value scaled by 2 ^ (-e) as a fraction of naturals
    let scaled : Int → Nat × Nat := fun e =>
      if 0 ≤ e then (a, d * 2 ^ e.toNat) else (a * 2 ^ (-e).toNat, d)
    let p1 := scaled e0
    let ep := if p1.1 / p1.2 ≥ 2 ^ 53 then (e0 + 1, scaled (e0 + 1)) else (e0, p1)
    let e := ep.1
    let m0 := ep.2.1 / ep.2.2
    let r := ep.2.1 % ep.2.2
    let m1 := if 2 * r > ep.2.2 ∨ (2 * r = ep.2.2 ∧ m0 % 2 = 1) then m0 + 1 else m0
    let sgnm : Int := if q.num < 0 then -(m1 : Int) else (m1 : Int)
    if 0 ≤ e then mkRat (sgnm * 2 ^ e.toNat) 1 else mkRat sgnm (2 ^ (-e).toNat)

/-- Exact rational addition built directly from numerators and
denominators (kernel-evaluable, equal to ordinary addition). -/
def qadd (x y : Rat) : Rat :=
  mkRat (x.num * y.den + y.num * x.den) (x.den * y.den)

/-- Float64 summation: a zero accumulator updated by a correctly rounded
addition per element.  This is the operand order NumPy uses for the
short groups of this program (its pairwise scheme is sequential below
eight summands and differs only in association above). -/
def fsum (l : List Rat) : Rat :=
  l.foldl (fun acc x => roundD (qadd acc x)) 0

/-! ### Loading the ledger (models load_transactions) -/

/-- A normalized transaction row: parsed date (NaT modelled as `none`),
the amount as the exact rational value of the binary64 the program
stores, and the three optional string fields. -/
structure Tx where
  date : Option PDate
  amount : Rat
  payer : Str
  payee : Str
  purpose : Str
deriving DecidableEq, Repr

/-- A pandas cell of a dtype=str frame: `none` models NaN (empty CSV field). -/
abbrev Cell := Option Str

/-- The raw dataframe as read by pd.read_csv: named columns of cells, all
of length `nrows`. -/
structure DF where
  nrows : Nat
  cols : List (Str × List Cell)
deriving Repr

def colNames (df : DF) : List Str := df.cols.map Prod.fst

def getCol (df : DF) (c : Str) : List Cell :=
  ((df.cols.find? fun p => p.1 == c).map Prod.snd).getD []

def colDate : Str := ['d', 'a', 't', 'e']

def colAmount : Str := ['a', 'm', 'o', 'u', 'n', 't']

def colPayer : Str := ['p', 'a', 'y', 'e', 'r']

def colPayee : Str := ['p', 'a', 'y', 'e', 'e']

def colPurpose : Str := ['p', 'u', 'r', 'p', 'o', 's', 'e']

def expected_columns : List Str := [colDate, colAmount, colPayer, colPayee, colPurpose]

def required_columns : List Str := [colDate, colAmount]

/-- Apply the settings column aliases: rename only columns present in the
frame. -/
def dfRename (aliases : List (Str × Str)) (df : DF) : DF :=
  let rmap := aliases.filter fun p => decide (p.1 ∈ colNames df)
  ⟨df.nrows, df.cols.map fun p =>
    match rmap.find? (fun q => q.1 == p.1) with
    | some q => (q.2, p.2)
    | none => p⟩

/-- Create missing expected columns as empty-string columns
(df[col] = ''). -/
def ensureExpected (df : DF) : DF :=
  expected_columns.foldl
    (fun d c =>
      if decide (c ∈ colNames d) then d
      else ⟨d.nrows, d.cols ++ [(c, List.replicate d.nrows (some []))]⟩)
    df

inductive LoadErr where
  /-- The ValueError raised for missing required columns, carrying the
  offending column names. -/
  | missingCols (cols : List Str)
  /-- A ValueError escaping parse_german_amount's fallback. -/
  | badAmount
deriving DecidableEq, Repr

/-- The required columns reported missing: absent from the frame, or
present with every cell null (isnull().all(), vacuously true on an empty
frame). -/
def missingOf (df : DF) : List Str :=
  required_columns.filter fun c =>
    decide (c ∉ colNames df) || (getCol df c).all fun cell => cell.isNone

/-- The parsing stage of load_transactions, run once validation passed:
parse dates (coercing failures to NaT) and German amounts (an uncaught
float() error aborts the load; the float the program keeps is the
correctly rounded binary64 of the parsed decimal, hence `roundD`), fill
the optional string columns, and assemble the rows. -/
def loadRows (df : DF) : Except LoadErr (List Tx) :=
  let dates := (getCol df colDate).map fun cell => cell.bind to_datetime_dayfirst
  match (getCol df colAmount).mapM parse_german_amount with
  | none => .error .badAmount
  | some amounts =>
      let payer := (getCol df colPayer).map fun cell => cell.getD []
      let payee := (getCol df colPayee).map fun cell => cell.getD []
      let purpose := (getCol df colPurpose).map fun cell => cell.getD []
      .ok ((List.range df.nrows).map fun i =>
        ⟨dates.getD i none, roundD (amounts.getD i 0), payer.getD i [], payee.getD i [],
          purpose.getD i []⟩)

/-- Embedding of load_transactions (src/app.py): apply aliases, synthesize
missing expected columns as empty strings, validate the required columns,
then run the parsing stage. -/
def load_transactions (aliases : List (Str × Str)) (df0 : DF) : Except LoadErr (List Tx) :=
  let df := ensureExpected (dfRename aliases df0)
  if (missingOf df).isEmpty then loadRows df
  else .error (.missingCols (missingOf df))

/-! ### Monthly aggregation (models get_monthly_summary) -/

/-- The year-month grouping key of a transaction; `none` (NaT) rows are
dropped by pandas groupby. -/
def ymOf (tx : Tx) : Option (Nat × Nat) := tx.date.map fun d => (d.year, d.month)

def uniqueFirstAux {α} [DecidableEq α] (seen : List α) : List α → List α
  | [] => []
  | a :: t => if a ∈ seen then uniqueFirstAux seen t else a :: uniqueFirstAux (a :: seen) t

/-- Deduplicate keeping first occurrences (pandas unique order). -/
def uniqueFirst {α} [DecidableEq α] (l : List α) : List α := uniqueFirstAux [] l

def monthLe (a b : Nat × Nat) : Bool := a.1 < b.1 || (a.1 = b.1 && a.2 ≤ b.2)

def insertMonth (m : Nat × Nat) : List (Nat × Nat) → List (Nat × Nat)
  | [] => [m]
  | x :: t => if monthLe m x then m :: x :: t else x :: insertMonth m t

/-- Chronologically ascending sort of the grouping keys (pandas groupby
sorts its keys; the later sort_values is a no-op on top of it). -/
def sortMonths (l : List (Nat × Nat)) : List (Nat × Nat) := l.foldr insertMonth []

def monthsOf (txs : List Tx) : List (Nat × Nat) :=
  sortMonths (uniqueFirst (txs.filterMap ymOf))

/-- One row of the monthly summary frame. -/
structure Bucket where
  ym : Nat × Nat
  income : Rat
  expenses : Rat
  net : Rat
deriving DecidableEq, Repr

/-- The amounts of one month group, in row order. -/
def groupAmounts (txs : List Tx) (m : Nat × Nat) : List Rat :=
  (txs.filter fun tx => decide (ymOf tx = some m)).map Tx.amount

/-- The summary row of one month: income is the float64 sum of the
positive amounts, expenses the float64 sum of the negative amounts (sign
preserved), net the float64 sum of all amounts of the group. -/
def bucketFor (txs : List Tx) (m : Nat × Nat) : Bucket :=
  let g := groupAmounts txs m
  ⟨m, fsum (g.filter fun a => decide (0 < a)), fsum (g.filter fun a => decide (a < 0)),
    fsum g⟩

/-- Embedding of get_monthly_summary (src/app.py). -/
def get_monthly_summary (txs : List Tx) : List Bucket :=
  (monthsOf txs).map (bucketFor txs)

/-- The spec's idealized exact-decimal reading of the same bucket: the
three sums taken over exact rationals with no float rounding.  This is a
spec-side definition, used to state the part of the bucket identity that
survives the float64 counterexample. -/
def idealBucketFor (txs : List Tx) (m : Nat × Nat) : Bucket :=
  let g := groupAmounts txs m
  ⟨m, (g.filter fun a => decide (0 < a)).sum, (g.filter fun a => decide (a < 0)).sum, g.sum⟩

/-- The monthly summary under the idealized exact-decimal sums. -/
def ideal_monthly_summary (txs : List Tx) : List Bucket :=
  (monthsOf txs).map (idealBucketFor txs)

/-- The JSON-serializable result of the /api/summary endpoint. -/
structure Summary where
  total_transactions : Nat
  date_range_start : Option (Nat × Nat)
  date_range_end : Option (Nat × Nat)
  totalIncome : Rat
  totalExpenses : Rat
  totalNet : Rat
  monthly_data : List Bucket
deriving DecidableEq, Repr

/-- Embedding of get_summary (src/app.py): load the ledger, aggregate by
month, and package counts, date range and totals; any exception from
loading propagates (the endpoint turns it into an HTTP 500). -/
def get_summary (aliases : List (Str × Str)) (df : DF) : Except LoadErr Summary :=
  match load_transactions aliases df with
  | .error e => .error e
  | .ok txs =>
      let ms := get_monthly_summary txs
      .ok ⟨txs.length, (ms.map Bucket.ym).head?, (ms.map Bucket.ym).getLast?,
        fsum (ms.map Bucket.income), fsum (ms.map Bucket.expenses),
        fsum (ms.map Bucket.net), ms⟩

/-- Decidable equality for Except results, used to evaluate the model at
concrete inputs. -/
instance {ε α : Type} [DecidableEq ε] [DecidableEq α] : DecidableEq (Except ε α) := fun x y =>
  match x, y with
  | .error a, .error b =>
      if h : a = b then .isTrue (congrArg Except.error h)
      else .isFalse fun he => h (Except.error.inj he)
  | .ok a, .ok b =>
      if h : a = b then .isTrue (congrArg Except.ok h)
      else .isFalse fun he => h (Except.ok.inj he)
  | .error _, .ok _ => .isFalse fun he => Except.noConfusion he
  | .ok _, .error _ => .isFalse fun he => Except.noConfusion he

/-! ### Per-month transaction details (models prepare_transaction_details) -/

def digitChar (n : Nat) : Char := Char.ofNat (48 + n)

def natDigitsAux : Nat → Nat → Str
  | 0, _ => []
  | fuel + 1, n =>
      if n < 10 then [digitChar n] else natDigitsAux fuel (n / 10) ++ [digitChar (n % 10)]

/-- Base-10 rendering of a natural number. -/
def natDigits (n : Nat) : Str := natDigitsAux (n + 1) n

def padZeros (k : Nat) (s : Str) : Str := List.replicate (k - s.length) '0' ++ s

def pad2 (n : Nat) : Str := padZeros 2 (natDigits n)

def pad4 (n : Nat) : Str := padZeros 4 (natDigits n)

/-- str of a monthly pandas Period: yyyy-mm. -/
def periodStr (d : PDate) : Str := pad4 d.year ++ '-' :: pad2 d.month

/-- str(pd.NaT). -/
def strNaT : Str := ['N', 'a', 'T']

/-- The YearMonth string column of prepare_transaction_details:
to_period('M').astype(str), with NaT dates rendered as the string NaT
(so such rows keep a group of their own). -/
def ymStr (tx : Tx) : Str :=
  match tx.date with
  | some d => periodStr d
  | none => strNaT

/-- str of a midnight pandas Timestamp: yyyy-mm-dd 00:00:00 (the date
column's value as hashed via str(val) in create_transaction_hash). -/
def timestampStr (d : PDate) : Str :=
  pad4 d.year ++ '-' :: (pad2 d.month ++ '-' :: (pad2 d.day ++
    [' ', '0', '0', ':', '0', '0', ':', '0', '0']))

def dateCellStr (d : Option PDate) : Str :=
  match d with
  | some d => timestampStr d
  | none => strNaT

def fracDigitsAux : Nat → Nat → Nat → Str
  | 0, _, _ => []
  | fuel + 1, num, den =>
      if num = 0 then [] else digitChar (num * 10 / den) :: fracDigitsAux fuel (num * 10 % den) den

/-- Decimal rendering of a float amount as Python str() shows the exactly
representable ledger values: optional minus, integer part, dot, fraction
without trailing zeros (at least the digit 0). -/
def floatStr (q : Rat) : Str :=
  let sgn : Str := if q < 0 then ['-'] else []
  let a := q.num.natAbs
  let b := q.den
  let fr := fracDigitsAux 20 (a % b) b
  sgn ++ natDigits (a / b) ++ '.' :: (if fr.isEmpty then ['0'] else fr)

/-- The stringified row values hashed for a transaction inside
prepare_transaction_details: by then the frame holds the parsed date, the
float amount, the three string fields and the appended YearMonth string
column, in that order. -/
def rowVals (tx : Tx) : List Str :=
  [dateCellStr tx.date, floatStr tx.amount, tx.payer, tx.payee, tx.purpose, ymStr tx]

inductive DetailErr where
  /-- The ValueError from NaT.strftime: NaTType does not support strftime. -/
  | natStrftime
deriving DecidableEq, Repr

/-- row['date'].strftime('%m-%d'): renders mm-dd for a real date and
raises on the NaT sentinel. -/
def strftimeMD (d : Option PDate) : Except DetailErr Str :=
  match d with
  | none => .error .natStrftime
  | some d => .ok (pad2 d.month ++ '-' :: pad2 d.day)

/-- One serialized transaction of the details structure; counterparty is
the payer for income rows and the payee for expense rows. -/
structure DetailTx where
  hash : Str
  dateStr : Str
  amount : Rat
  counterparty : Str
  purpose : Str
  category : Str
  comment : Str
deriving DecidableEq, Repr

structure MonthDetail where
  income : List DetailTx
  expenses : List DetailTx
deriving DecidableEq, Repr

/-- Build one serialized transaction: hash the row, read its annotation
(empty defaults), and format the display date — raising on NaT. -/
def mkDetail (ann : List (Str × Annotation)) (isIncome : Bool) (tx : Tx) :
    Except DetailErr DetailTx :=
  let h := create_transaction_hash (rowVals tx)
  let a := (lookupA ann h).getD ⟨[], []⟩
  match strftimeMD tx.date with
  | .error e => .error e
  | .ok ds =>
      .ok ⟨h, ds, tx.amount, if isIncome then tx.payer else tx.payee, tx.purpose,
        a.category, a.comment⟩

/-- The body of prepare_transaction_details for one month group:
serialize the income (amount > 0) and expense (amount < 0) rows of the
group, propagating the NaT strftime error. -/
def monthDetail (annotations : List (Str × Annotation)) (txs : List Tx) (m : Str) :
    Except DetailErr (Str × MonthDetail) :=
  let month_data := txs.filter fun tx => decide (ymStr tx = m)
  match (month_data.filter fun tx => decide (0 < tx.amount)).mapM
      (mkDetail annotations true) with
  | .error e => .error e
  | .ok inc =>
      match (month_data.filter fun tx => decide (tx.amount < 0)).mapM
          (mkDetail annotations false) with
      | .error e => .error e
      | .ok exp => .ok (m, ⟨inc, exp⟩)

/-- Embedding of prepare_transaction_details (src/app.py): group the
transactions by YearMonth string (first-occurrence order, NaT rows
included under the NaT group), and per month serialize the income and
expense rows. -/
def prepare_transaction_details (txs : List Tx) (file : List (Str × Annotation)) :
    Except DetailErr (List (Str × MonthDetail)) :=
  (uniqueFirst (txs.map ymStr)).mapM (monthDetail (load_annotations file) txs)

/-- Claim C1: the transaction hash is deterministic: hashing the same row
twice yields an identical digest, two rows identical in every column get
the same hash, and the digest is exactly the fixed cryptographic hash
(SHA-256) of the row's field values joined in order by the fixed pipe
delimiter. -/
theorem transaction_hash_deterministic (r1 r2 : List Str) (h : r1 = r2) :
    create_transaction_hash r1 = create_transaction_hash r2 ∧
    create_transaction_hash r1 = sha256hex (utf8Encode (joinSep '|' r1)) := by
  subst h
  exact ⟨rfl, rfl⟩

/-- Witness for C1 at a concrete row. -/
theorem transaction_hash_deterministic_witness :
    create_transaction_hash [['a'], ['b', 'c']] = create_transaction_hash [['a'], ['b', 'c']] ∧
    create_transaction_hash [['a'], ['b', 'c']] =
      sha256hex (utf8Encode (joinSep '|' [['a'], ['b', 'c']])) :=
  transaction_hash_deterministic [['a'], ['b', 'c']] [['a'], ['b', 'c']] rfl

/-! ### List and character lemmas used to analyse the parsing pipeline -/

theorem dropWhile_append_of_all {α} (p : α → Bool) (w r : List α)
    (hw : ∀ c ∈ w, p c = true) :
    (w ++ r).dropWhile p = r.dropWhile p := by
  induction w with
  | nil => rfl
  | cons a t ih =>
      simp only [List.cons_append, List.dropWhile_cons, hw a (by simp)]
      exact ih fun c hc => hw c (by simp [hc])

theorem dropWhile_eq_nil_of_all {α} (p : α → Bool) (w : List α)
    (hw : ∀ c ∈ w, p c = true) : w.dropWhile p = [] := by
  have := dropWhile_append_of_all p w [] hw
  simpa using this

theorem dropWhile_eq_self_of_none {α} (p : α → Bool) (w : List α)
    (hw : ∀ c ∈ w, p c = false) : w.dropWhile p = w := by
  cases w with
  | nil => rfl
  | cons a t => simp [List.dropWhile_cons, hw a (by simp)]

theorem takeWhile_eq_self_of_all {α} (p : α → Bool) (w : List α)
    (hw : ∀ c ∈ w, p c = true) : w.takeWhile p = w := by
  induction w with
  | nil => rfl
  | cons a t ih =>
      simp only [List.takeWhile_cons, hw a (by simp)]
      simp [ih fun c hc => hw c (by simp [hc])]

theorem takeWhile_middle {α} (p : α → Bool) (xs : List α) (y : α) (r : List α)
    (hxs : ∀ x ∈ xs, p x = true) (hy : p y = false) :
    (xs ++ y :: r).takeWhile p = xs ∧ (xs ++ y :: r).dropWhile p = y :: r := by
  induction xs with
  | nil => simp [List.takeWhile_cons, List.dropWhile_cons, hy]
  | cons a t ih =>
      have ha : p a = true := hxs a (by simp)
      have iht := ih fun x hx => hxs x (by simp [hx])
      simp [List.takeWhile_cons, List.dropWhile_cons, ha, iht.1, iht.2]

theorem trimWs_sandwich (w1 x w2 : Str)
    (h1 : ∀ c ∈ w1, isWsChar c = true) (h2 : ∀ c ∈ w2, isWsChar c = true)
    (hx : ∀ c ∈ x, isWsChar c = false) :
    trimWs (w1 ++ x ++ w2) = x := by
  unfold trimWs dropTrail
  rw [List.append_assoc, dropWhile_append_of_all _ w1 _ h1]
  cases x with
  | nil =>
      simp only [List.nil_append]
      rw [dropWhile_eq_nil_of_all _ w2 h2]
      rfl
  | cons a t =>
      have ha := hx a (by simp)
      rw [List.cons_append, List.dropWhile_cons, ha, if_neg (by simp)]
      rw [← List.cons_append, List.reverse_append,
        dropWhile_append_of_all _ w2.reverse _ (fun c hc => h2 c (List.mem_reverse.mp hc)),
        dropWhile_eq_self_of_none _ _ (fun c hc => hx c (List.mem_reverse.mp hc)),
        List.reverse_reverse]

theorem trimWs_of_nonws (x : Str) (hx : ∀ c ∈ x, isWsChar c = false) :
    trimWs x = x := by
  have := trimWs_sandwich [] x [] (by simp) (by simp) hx
  simpa using this

/-- A digit character is distinct from any non-digit character. -/
theorem digit_beq_false (c d : Char) (h : c.isDigit = true) (hd : d.isDigit = false) :
    (c == d) = false := by
  rw [beq_eq_false_iff_ne]
  rintro rfl
  rw [h] at hd
  cases hd

theorem digit_not_ws (c : Char) (h : c.isDigit = true) : isWsChar c = false := by
  unfold isWsChar
  rw [digit_beq_false c ' ' h (by decide), digit_beq_false c '\t' h (by decide),
    digit_beq_false c '\n' h (by decide), digit_beq_false c '\r' h (by decide),
    digit_beq_false c '\x0b' h (by decide), digit_beq_false c '\x0c' h (by decide)]
  rfl

theorem digit_not_dot (c : Char) (h : c.isDigit = true) : isDot c = false :=
  digit_beq_false c '.' h (by decide)

/-- The separator-joined rendering of digit groups starts with the first
group. -/
theorem joinSep_cons_ex (sep : Char) (g0 : Str) (gt : List Str) :
    ∃ rest, joinSep sep (g0 :: gt) = g0 ++ rest := by
  cases gt with
  | nil => exact ⟨[], by simp [joinSep]⟩
  | cons h t => exact ⟨sep :: joinSep sep (h :: t), rfl⟩

/-- Removing the separators from a separator-joined list of digit groups
leaves exactly the concatenated groups. -/
theorem filter_joinSep_dot (gs : List Str)
    (h : ∀ g ∈ gs, ∀ c ∈ g, c.isDigit = true) :
    (joinSep '.' gs).filter (fun c => !isDot c) = gs.flatten := by
  induction gs with
  | nil => rfl
  | cons g t ih =>
      have hg : g.filter (fun c => !isDot c) = g :=
        List.filter_eq_self.mpr fun c hc => by
          simp [digit_not_dot c (h g (by simp) c hc)]
      cases t with
      | nil => simpa [joinSep] using hg
      | cons g2 t2 =>
          have iht := ih fun g hgm c hc => h g (by simp [hgm]) c hc
          show ((g ++ '.' :: joinSep '.' (g2 :: t2)).filter fun c => !isDot c) = _
          rw [List.filter_append, hg, List.filter_cons]
          have hdot : (!isDot '.') = false := rfl
          rw [hdot, if_neg (by simp), iht]
          simp

/-- Every character of a separator-joined list of digit groups is the
separator or a digit. -/
theorem mem_joinSep (sep : Char) (gs : List Str) (c : Char)
    (hc : c ∈ joinSep sep gs) : c = sep ∨ ∃ g ∈ gs, c ∈ g := by
  induction gs with
  | nil => cases hc
  | cons g t ih =>
      cases t with
      | nil =>
          simp only [joinSep] at hc
          exact Or.inr ⟨g, by simp, hc⟩
      | cons g2 t2 =>
          simp only [joinSep, List.mem_append, List.mem_cons] at hc
          rcases hc with hg | rfl | hrest
          · exact Or.inr ⟨g, by simp, hg⟩
          · exact Or.inl rfl
          · rcases ih hrest with h1 | ⟨g', hg', hc'⟩
            · exact Or.inl h1
            · exact Or.inr ⟨g', by simp [hg'], hc'⟩

theorem map_comma_id (l : Str) (h : ∀ c ∈ l, c.isDigit = true) :
    (l.map fun c => if c == ',' then '.' else c) = l := by
  induction l with
  | nil => rfl
  | cons a t ih =>
      rw [List.map_cons, digit_beq_false a ',' (h a (by simp)) (by decide), if_neg (by simp),
        ih fun c hc => h c (by simp [hc])]

theorem digit_not_ws_of_dotted (J f : Str) (hJd : ∀ c ∈ J, c.isDigit = true)
    (hfd : ∀ c ∈ f, c.isDigit = true) :
    ∀ c ∈ J ++ '.' :: f, isWsChar c = false := by
  intro c hc
  rcases List.mem_append.mp hc with h1 | h2
  · exact digit_not_ws c (hJd c h1)
  · rcases List.mem_cons.mp h2 with rfl | h3
    · decide
    · exact digit_not_ws c (hfd c h3)

/-- Evaluation of the float() model on a nonempty digit string followed by
a dot and further digits. -/
theorem pyFloat_digits_frac (c0 : Char) (Jt f : Str)
    (hJd : ∀ c ∈ c0 :: Jt, c.isDigit = true) (hfd : ∀ c ∈ f, c.isDigit = true) :
    pyFloat ((c0 :: Jt) ++ '.' :: f) =
      some (mkRat (natOfDigits (c0 :: Jt) * 10 ^ f.length + natOfDigits f) (10 ^ f.length)) := by
  have h1 : trimWs ((c0 :: Jt) ++ '.' :: f) = (c0 :: Jt) ++ '.' :: f :=
    trimWs_of_nonws _ (digit_not_ws_of_dotted _ _ hJd hfd)
  have hneg : (((c0 :: Jt) ++ '.' :: f).head? == some '-') = false := by
    rw [List.cons_append, List.head?_cons]
    exact digit_beq_false c0 '-' (hJd c0 (by simp)) (by decide)
  have hpos : (((c0 :: Jt) ++ '.' :: f).head? == some '+') = false := by
    rw [List.cons_append, List.head?_cons]
    exact digit_beq_false c0 '+' (hJd c0 (by simp)) (by decide)
  have htk := takeWhile_middle (fun c => !isDot c) (c0 :: Jt) '.' f
    (fun x hx => by simp [digit_not_dot x (hJd x hx)]) (by decide)
  have hall1 : (c0 :: Jt).all Char.isDigit = true := List.all_eq_true.mpr hJd
  have hall2 : f.all Char.isDigit = true := List.all_eq_true.mpr hfd
  simp only [pyFloat, h1, hneg, hpos, Bool.or_self, Bool.false_eq_true, if_false,
    htk.1, htk.2, hall1, hall2, List.isEmpty_cons, Bool.not_false, Bool.true_or,
    Bool.and_self, Bool.true_and, Bool.and_true, if_true]

/-- Evaluation of the float() model on a nonempty pure digit string. -/
theorem pyFloat_digits (c0 : Char) (Jt : Str)
    (hJd : ∀ c ∈ c0 :: Jt, c.isDigit = true) :
    pyFloat (c0 :: Jt) = some ((natOfDigits (c0 :: Jt) : Rat)) := by
  have h1 : trimWs (c0 :: Jt) = c0 :: Jt :=
    trimWs_of_nonws _ fun c hc => digit_not_ws c (hJd c hc)
  have hneg : ((c0 :: Jt).head? == some '-') = false := by
    rw [List.head?_cons]
    exact digit_beq_false c0 '-' (hJd c0 (by simp)) (by decide)
  have hpos : ((c0 :: Jt).head? == some '+') = false := by
    rw [List.head?_cons]
    exact digit_beq_false c0 '+' (hJd c0 (by simp)) (by decide)
  have htk : (c0 :: Jt).takeWhile (fun c => !isDot c) = c0 :: Jt :=
    takeWhile_eq_self_of_all _ _ fun x hx => by simp [digit_not_dot x (hJd x hx)]
  have hdr : (c0 :: Jt).dropWhile (fun c => !isDot c) = [] :=
    dropWhile_eq_nil_of_all _ _ fun x hx => by simp [digit_not_dot x (hJd x hx)]
  have hall1 : (c0 :: Jt).all Char.isDigit = true := List.all_eq_true.mpr hJd
  simp only [pyFloat, h1, hneg, hpos, Bool.or_self, Bool.false_eq_true, if_false,
    htk, hdr, hall1, List.isEmpty_cons, Bool.not_false, Bool.true_and, Bool.and_true, if_true]

theorem isEmpty_false_of_ne_nil {α} (l : List α) (h : l ≠ []) : l.isEmpty = false := by
  cases l with
  | nil => exact absurd rfl h
  | cons a t => rfl

/-- Evaluation of parse_german_amount on a rendered amount string whose
numeral body (after the optional minus) cleans up to a successful float()
parse. -/
theorem parse_render_eval (ws1 ws2 : Str) (neg : Bool) (B : Str) (v : Rat)
    (hw1 : ∀ c ∈ ws1, isWsChar c = true) (hw2 : ∀ c ∈ ws2, isWsChar c = true)
    (hB : ∀ c ∈ B, isWsChar c = false)
    (hBne : B ≠ [])
    (hBhead : (B.head? == some '-') = false)
    (hpf : pyFloat ((B.filter fun c => !isDot c).map fun c => if c == ',' then '.' else c) =
      some v) :
    parse_german_amount (some (ws1 ++ ((if neg then ['-'] else []) ++ B) ++ ws2)) =
      some (if neg then -v else v) := by
  have hbody : ∀ c ∈ (if neg then ['-'] else []) ++ B, isWsChar c = false := by
    intro c hc
    rcases List.mem_append.mp hc with h1 | h2
    · cases neg with
      | false => simp at h1
      | true =>
          simp only [if_true, List.mem_singleton] at h1
          subst h1
          decide
    · exact hB c h2
  have hsne : (ws1 ++ ((if neg then ['-'] else []) ++ B) ++ ws2) ≠ [] := by
    intro h
    rcases List.append_eq_nil.mp h with ⟨h12, _⟩
    rcases List.append_eq_nil.mp h12 with ⟨_, hB2⟩
    rcases List.append_eq_nil.mp hB2 with ⟨_, hBn⟩
    exact hBne hBn
  have htrim : trimWs (ws1 ++ ((if neg then ['-'] else []) ++ B) ++ ws2) =
      (if neg then ['-'] else []) ++ B :=
    trimWs_sandwich _ _ _ hw1 hw2 hbody
  have hie := isEmpty_false_of_ne_nil _ hsne
  clear hie hbody
  cases neg with
  | false =>
      simp only [Bool.false_eq_true, if_false, List.nil_append] at htrim hsne ⊢
      simp only [parse_german_amount]
      rw [isEmpty_false_of_ne_nil _ hsne]
      simp only [Bool.false_eq_true, if_false, htrim, hBhead, hpf]
  | true =>
      simp only [if_true, List.cons_append, List.nil_append] at htrim hsne ⊢
      simp only [parse_german_amount]
      rw [isEmpty_false_of_ne_nil _ hsne]
      simp only [Bool.false_eq_true, if_false, htrim, List.head?_cons, beq_self_eq_true,
        if_true, List.tail_cons, hpf]

/-- Claim C2: for every amount string made of optional surrounding
whitespace, an optional leading minus, digit groups separated by dots
(thousands separators) and an optional comma-led decimal fraction,
parse_german_amount follows the stated algorithm (strip, record and drop
the minus, drop dots, comma to dot, parse as a decimal, reapply the sign)
and returns the denoted signed decimal; an empty or missing amount parses
to 0.0. -/
theorem parse_german_amount_spec (g : GermanAmt) (hwf : germanWF g) :
    parse_german_amount (some (renderGerman g)) = some (germanValue g) ∧
    parse_german_amount none = some 0 ∧
    parse_german_amount (some []) = some 0 := by
  obtain ⟨ws1, neg, groups, frac, ws2⟩ := g
  obtain ⟨hw1, hw2, hgne, hgr, hfr⟩ := hwf
  simp only at hw1 hw2 hgne hgr hfr
  refine ⟨?_, rfl, rfl⟩
  obtain ⟨g0, gt, rfl⟩ : ∃ g0 gt, groups = g0 :: gt := by
    cases groups with
    | nil => exact absurd rfl hgne
    | cons a b => exact ⟨a, b, rfl⟩
  obtain ⟨c0, g0t, rfl⟩ : ∃ c0 g0t, g0 = c0 :: g0t := by
    rcases hgr g0 (by simp) with ⟨hne, _⟩
    cases g0 with
    | nil => exact absurd rfl hne
    | cons a b => exact ⟨a, b, rfl⟩
  have hgrd : ∀ gr ∈ (c0 :: g0t) :: gt, ∀ c ∈ gr, c.isDigit = true :=
    fun gr h c hc => (hgr gr h).2 c hc
  have hJd : ∀ c ∈ ((c0 :: g0t) :: gt).flatten, c.isDigit = true := by
    intro c hc
    rcases List.mem_flatten.mp hc with ⟨l, hl, hcl⟩
    exact hgrd l hl c hcl
  have hJflat : ((c0 :: g0t) :: gt).flatten = c0 :: (g0t ++ gt.flatten) := by simp
  have hJd' : ∀ c ∈ c0 :: (g0t ++ gt.flatten), c.isDigit = true := by
    rw [← hJflat]; exact hJd
  obtain ⟨rest, hjoin⟩ := joinSep_cons_ex '.' (c0 :: g0t) gt
  have hBw : ∀ c ∈ joinSep '.' ((c0 :: g0t) :: gt), isWsChar c = false := by
    intro c hc
    rcases mem_joinSep '.' _ c hc with rfl | ⟨gr, hgr2, hcg⟩
    · decide
    · exact digit_not_ws c (hgrd gr hgr2 c hcg)
  have hBne : joinSep '.' ((c0 :: g0t) :: gt) ≠ [] := by
    rw [hjoin]
    simp
  have hBhead : ((joinSep '.' ((c0 :: g0t) :: gt)).head? == some '-') = false := by
    rw [hjoin, List.cons_append, List.head?_cons]
    exact digit_beq_false c0 '-' (hgrd (c0 :: g0t) (by simp) c0 (by simp)) (by decide)
  have hfilter : (joinSep '.' ((c0 :: g0t) :: gt)).filter (fun c => !isDot c) =
      ((c0 :: g0t) :: gt).flatten := filter_joinSep_dot _ hgrd
  rcases frac with _ | f
  · -- no decimal fraction
    have hrender : renderGerman ⟨ws1, neg, (c0 :: g0t) :: gt, none, ws2⟩ =
        ws1 ++ ((if neg then ['-'] else []) ++ joinSep '.' ((c0 :: g0t) :: gt)) ++ ws2 := by
      simp [renderGerman]
    have hpf : pyFloat (((joinSep '.' ((c0 :: g0t) :: gt)).filter fun c => !isDot c).map
        fun c => if c == ',' then '.' else c) =
        some ((natOfDigits (((c0 :: g0t) :: gt).flatten) : Rat)) := by
      rw [hfilter, map_comma_id _ hJd, hJflat, pyFloat_digits c0 _ hJd', ← hJflat]
    rw [hrender, parse_render_eval ws1 ws2 neg _ _ hw1 hw2 hBw hBne hBhead hpf]
    have hgv : germanValue ⟨ws1, neg, (c0 :: g0t) :: gt, none, ws2⟩ =
        (if neg then -1 else 1) * ((natOfDigits (((c0 :: g0t) :: gt).flatten) : Rat) + 0) :=
      rfl
    rw [hgv]
    cases neg <;> simp
  · -- with a comma-led fraction
    obtain ⟨hfne, hfd⟩ := hfr f rfl
    have hrender : renderGerman ⟨ws1, neg, (c0 :: g0t) :: gt, some f, ws2⟩ =
        ws1 ++ ((if neg then ['-'] else []) ++
          (joinSep '.' ((c0 :: g0t) :: gt) ++ ',' :: f)) ++ ws2 := by
      simp [renderGerman]
    have hBw2 : ∀ c ∈ joinSep '.' ((c0 :: g0t) :: gt) ++ ',' :: f, isWsChar c = false := by
      intro c hc
      rcases List.mem_append.mp hc with h1 | h2
      · exact hBw c h1
      · rcases List.mem_cons.mp h2 with rfl | h3
        · decide
        · exact digit_not_ws c (hfd c h3)
    have hBne2 : joinSep '.' ((c0 :: g0t) :: gt) ++ ',' :: f ≠ [] := by simp
    have hBhead2 : ((joinSep '.' ((c0 :: g0t) :: gt) ++ ',' :: f).head? == some '-') = false := by
      rw [hjoin, List.cons_append, List.cons_append, List.head?_cons]
      exact digit_beq_false c0 '-' (hgrd (c0 :: g0t) (by simp) c0 (by simp)) (by decide)
    have hpf : pyFloat (((joinSep '.' ((c0 :: g0t) :: gt) ++ ',' :: f).filter
          fun c => !isDot c).map fun c => if c == ',' then '.' else c) =
        some (mkRat (natOfDigits (((c0 :: g0t) :: gt).flatten) * 10 ^ f.length + natOfDigits f)
          (10 ^ f.length)) := by
      rw [List.filter_append, hfilter, List.filter_cons]
      have hcm : (!isDot ',') = true := rfl
      rw [hcm, if_pos rfl, List.filter_eq_self.mpr fun c hc => by
        simp [digit_not_dot c (hfd c hc)]]
      rw [List.map_append, map_comma_id _ hJd, List.map_cons,
        show (if (',' == ',') = true then '.' else ',') = '.' from rfl,
        map_comma_id _ hfd, hJflat, List.cons_append,
        ← List.cons_append, pyFloat_digits_frac c0 _ f hJd' hfd, ← hJflat]
    rw [hrender, parse_render_eval ws1 ws2 neg _ _ hw1 hw2 hBw2 hBne2 hBhead2 hpf]
    have hmk : (mkRat (natOfDigits (((c0 :: g0t) :: gt).flatten) * 10 ^ f.length +
        natOfDigits f) (10 ^ f.length) : Rat) =
        (natOfDigits (((c0 :: g0t) :: gt).flatten) : Rat) +
          (natOfDigits f : Rat) / 10 ^ f.length := by
      rw [Rat.mkRat_eq_div]
      push_cast
      have h10 : ((10 : Rat) ^ f.length) ≠ 0 := by positivity
      field_simp
    have hgv : germanValue ⟨ws1, neg, (c0 :: g0t) :: gt, some f, ws2⟩ =
        (if neg then -1 else 1) * ((natOfDigits (((c0 :: g0t) :: gt).flatten) : Rat) +
          (natOfDigits f : Rat) / 10 ^ f.length) := rfl
    rw [hgv, hmk]
    cases neg <;> simp

/-- Witness for C2: the string with a leading minus, digits 45, comma,
digits 90 parses to the decimal minus 45.90 (minus 459 tenths). -/
theorem parse_german_amount_spec_witness :
    parse_german_amount (some (renderGerman ⟨[], true, [['4', '5']], some ['9', '0'], []⟩)) =
      some (germanValue ⟨[], true, [['4', '5']], some ['9', '0'], []⟩) ∧
    renderGerman ⟨[], true, [['4', '5']], some ['9', '0'], []⟩ =
      ['-', '4', '5', ',', '9', '0'] ∧
    parse_german_amount (some ['-', '4', '5', ',', '9', '0']) = some (mkRat (-459) 10) := by
  refine ⟨(parse_german_amount_spec ⟨[], true, [['4', '5']], some ['9', '0'], []⟩
    (by simp only [germanWF]; decide)).1, by decide, by decide⟩

/-- Counterexample to Claim C8: on the non-numeric text abc the amount
parser does not fail closed to 0.0: both the primary parse and the
separator-stripping fallback raise, and the exception propagates
(modelled as `none`). -/
theorem parse_nonnumeric_raises_counterexample :
    parse_german_amount (some ['a', 'b', 'c']) = none ∧
    parse_german_amount (some ['a', 'b', 'c']) ≠ some 0 := by
  constructor
  · decide
  · decide

/-- Claim C8 as amended: when the primary cleaned parse fails, the code
retries float() on the original string with the comma turned into a dot
and every dot removed (both separators stripped); the result is whatever
that fallback yields — an exception (`none`) when it also fails — never a
silent 0.0.  Only empty or missing amounts parse to 0.0 (proved with
Claim C2). -/
theorem parse_german_amount_fallback (s : Str) (hne : s.isEmpty = false)
    (h1 : pyFloat ((((if ((trimWs s).head? == some '-') then (trimWs s).tail
        else trimWs s).filter fun c => !isDot c).map
          fun c => if c == ',' then '.' else c)) = none) :
    parse_german_amount (some s) =
      pyFloat ((s.map fun c => if c == ',' then '.' else c).filter fun c => !isDot c) := by
  simp only [parse_german_amount, hne, Bool.false_eq_true, if_false, h1]

/-- Witness for the amended C8 at the concrete input abc (where the
fallback also fails, so parsing raises). -/
theorem parse_german_amount_fallback_witness :
    parse_german_amount (some ['a', 'b', 'c']) =
      pyFloat ((['a', 'b', 'c'].map fun c => if c == ',' then '.' else c).filter
        fun c => !isDot c) :=
  parse_german_amount_fallback ['a', 'b', 'c'] (by decide) (by decide)

theorem lookupA_eq_none_iff (d : List (Str × Annotation)) (k : Str) :
    lookupA d k = none ↔ k ∉ d.map Prod.fst := by
  induction d with
  | nil => simp [lookupA]
  | cons p t ih =>
      by_cases hp : p.1 = k
      · simp [lookupA, hp]
      · rw [lookupA, if_neg hp, ih]
        simp only [List.map_cons, List.mem_cons]
        constructor
        · intro h1 h2
          rcases h2 with h2 | h2
          · exact hp h2.symm
          · exact h1 h2
        · intro h1 h2
          exact h1 (Or.inr h2)

theorem lookupA_append_other (d : List (Str × Annotation)) (k h : Str) (v : Annotation)
    (hne : k ≠ h) : lookupA (d ++ [(h, v)]) k = lookupA d k := by
  induction d with
  | nil => simp [lookupA, Ne.symm hne]
  | cons p t ih =>
      by_cases hp : p.1 = k
      · simp [lookupA, hp]
      · simp [lookupA, hp, ih]

theorem lookupA_append_new (d : List (Str × Annotation)) (h : Str) (v : Annotation)
    (hnone : lookupA d h = none) : lookupA (d ++ [(h, v)]) h = some v := by
  induction d with
  | nil => simp [lookupA]
  | cons p t ih =>
      by_cases hp : p.1 = h
      · rw [lookupA, if_pos hp] at hnone
        cases hnone
      · rw [lookupA, if_neg hp] at hnone
        simp [lookupA, hp, ih hnone]

theorem lookupA_mapAtKey_same (d : List (Str × Annotation)) (k : Str)
    (f : Annotation → Annotation) :
    lookupA (mapAtKey d k f) k = (lookupA d k).map f := by
  simp only [mapAtKey]
  induction d with
  | nil => rfl
  | cons p t ih =>
      by_cases hp : p.1 = k
      · simp [lookupA, hp]
      · simp [lookupA, hp, ih]

theorem lookupA_mapAtKey_other (d : List (Str × Annotation)) (k k' : Str)
    (f : Annotation → Annotation) (hne : k' ≠ k) :
    lookupA (mapAtKey d k f) k' = lookupA d k' := by
  simp only [mapAtKey]
  induction d with
  | nil => rfl
  | cons p t ih =>
      by_cases hp : p.1 = k
      · have hp2 : ¬ (k = k') := fun h2 => hne h2.symm
        simp [lookupA, hp, hp2, ih]
      · simp [lookupA, hp, ih]

theorem keys_mapAtKey (d : List (Str × Annotation)) (k : Str) (f : Annotation → Annotation) :
    (mapAtKey d k f).map Prod.fst = d.map Prod.fst := by
  simp only [mapAtKey]
  induction d with
  | nil => rfl
  | cons p t ih =>
      by_cases hp : p.1 = k
      · simp [hp, ih]
      · simp [hp, ih]

theorem dictSet_absent (d : List (Str × Annotation)) (k : Str) (v : Annotation)
    (h : lookupA d k = none) : dictSet d k v = d ++ [(k, v)] := by
  unfold dictSet
  rw [h]
  rfl

theorem keys_map_replace (d : List (Str × Annotation)) (k : Str) (v : Annotation) :
    (d.map (fun p => if p.1 = k then (k, v) else p)).map Prod.fst = d.map Prod.fst := by
  induction d with
  | nil => rfl
  | cons p t ih =>
      by_cases hp : p.1 = k
      · simp only [List.map_cons, if_pos hp, ih]
        rw [hp]
      · simp only [List.map_cons, if_neg hp, ih]

theorem keys_dictSet_present (d : List (Str × Annotation)) (k : Str) (v : Annotation)
    (h : (lookupA d k).isSome = true) :
    (dictSet d k v).map Prod.fst = d.map Prod.fst := by
  unfold dictSet
  rw [if_pos h]
  exact keys_map_replace d k v

theorem nodupKeys_append_new (d : List (Str × Annotation)) (k : Str) (v : Annotation)
    (hn : lookupA d k = none) (h : nodupKeys d) : nodupKeys (d ++ [(k, v)]) := by
  have hk : k ∉ d.map Prod.fst := (lookupA_eq_none_iff d k).mp hn
  unfold nodupKeys at *
  rw [List.map_append]
  rw [List.nodup_append]
  refine ⟨h, by simp, ?_⟩
  intro a ha hak
  simp only [List.map_cons, List.map_nil, List.mem_singleton] at hak
  subst hak
  exact hk ha

theorem nodupKeys_dictSet (d : List (Str × Annotation)) (k : Str) (v : Annotation)
    (h : nodupKeys d) : nodupKeys (dictSet d k v) := by
  by_cases hs : (lookupA d k).isSome = true
  · unfold nodupKeys
    rw [keys_dictSet_present d k v hs]
    exact h
  · have hn : lookupA d k = none := by
      cases hl : lookupA d k with
      | none => rfl
      | some a => rw [hl] at hs; exact absurd rfl hs
    rw [dictSet_absent d k v hn]
    exact nodupKeys_append_new d k v hn h

theorem nodupKeys_foldl (rows acc : List (Str × Annotation)) (h : nodupKeys acc) :
    nodupKeys (rows.foldl (fun d row => dictSet d row.1 row.2) acc) := by
  induction rows generalizing acc with
  | nil => exact h
  | cons kv t ih => exact ih _ (nodupKeys_dictSet _ _ _ h)

theorem nodupKeys_load (file : List (Str × Annotation)) :
    nodupKeys (load_annotations file) :=
  nodupKeys_foldl file [] (by simp [nodupKeys])

theorem foldl_dictSet_append (rows acc : List (Str × Annotation))
    (h : ((acc ++ rows).map Prod.fst).Nodup) :
    rows.foldl (fun d row => dictSet d row.1 row.2) acc = acc ++ rows := by
  induction rows generalizing acc with
  | nil => simp
  | cons kv t ih =>
      have hk : lookupA acc kv.1 = none := by
        rw [lookupA_eq_none_iff]
        intro hmem
        rw [List.map_append] at h
        rcases List.nodup_append.mp h with ⟨_, _, hdisj⟩
        exact hdisj hmem (by simp)
      rw [List.foldl_cons, dictSet_absent _ _ _ hk]
      have h2 : (((acc ++ [kv]) ++ t).map Prod.fst).Nodup := by
        rw [List.append_assoc]
        simpa using h
      rw [ih _ h2, List.append_assoc]
      simp

/-- Loading a store whose rows have pairwise distinct hashes reproduces
exactly those rows.  In particular the write-read round trip of
save_annotation is the identity on its output. -/
theorem load_annotations_of_nodup (d : List (Str × Annotation)) (h : nodupKeys d) :
    load_annotations d = d := by
  have := foldl_dictSet_append d [] (by simpa [nodupKeys] using h)
  simpa [load_annotations] using this

theorem nodupKeys_save (file : List (Str × Annotation)) (hsh : Str)
    (cat com : Option Str) : nodupKeys ( save_annotation file hsh cat com) := by
  unfold save_annotation
  have h0 := nodupKeys_load file
  have h1 : nodupKeys (if (lookupA (load_annotations file) hsh).isSome then
      load_annotations file else load_annotations file ++ [(hsh, ⟨[], []⟩)]) := by
    by_cases hs : (lookupA (load_annotations file) hsh).isSome = true
    · rw [if_pos hs]
      exact h0
    · have hn : lookupA (load_annotations file) hsh = none := by
        cases hl : lookupA (load_annotations file) hsh with
        | none => rfl
        | some a => rw [hl] at hs; exact absurd rfl hs
      rw [if_neg hs]
      exact nodupKeys_append_new _ _ _ hn h0
  cases cat with
  | none =>
      cases com with
      | none => exact h1
      | some c2 =>
          unfold nodupKeys
          rw [keys_mapAtKey]
          exact h1
  | some c =>
      cases com with
      | none =>
          unfold nodupKeys
          rw [keys_mapAtKey]
          exact h1
      | some c2 =>
          unfold nodupKeys
          rw [keys_mapAtKey, keys_mapAtKey]
          exact h1

/-- The value stored under the written hash after save_annotation: the
entry is created with empty defaults when absent, and only the provided
fields are overwritten. -/
theorem lookupA_save (file : List (Str × Annotation)) (hsh : Str) (cat com : Option Str) :
    lookupA ( save_annotation file hsh cat com) hsh =
      some ⟨cat.getD ((lookupA (load_annotations file) hsh).getD ⟨[], []⟩).category,
            com.getD ((lookupA (load_annotations file) hsh).getD ⟨[], []⟩).comment⟩ := by
  unfold save_annotation
  have h1 : lookupA (if (lookupA (load_annotations file) hsh).isSome then
      load_annotations file else load_annotations file ++ [(hsh, ⟨[], []⟩)]) hsh =
      some ((lookupA (load_annotations file) hsh).getD ⟨[], []⟩) := by
    cases hl : lookupA (load_annotations file) hsh with
    | some a =>
        simp only [Option.isSome_some, Option.getD_some, if_true]
        exact hl
    | none =>
        simp only [Option.isSome_none, Option.getD_none, Bool.false_eq_true, if_false]
        exact lookupA_append_new _ hsh _ hl
  cases cat with
  | none =>
      cases com with
      | none => exact h1
      | some c2 =>
          rw [lookupA_mapAtKey_same, h1]
          rfl
  | some c =>
      cases com with
      | none =>
          rw [lookupA_mapAtKey_same, h1]
          rfl
      | some c2 =>
          rw [lookupA_mapAtKey_same, lookupA_mapAtKey_same, h1]
          rfl

theorem mapAtKey_eq_self (d : List (Str × Annotation)) (k : Str)
    (f : Annotation → Annotation) (h : ∀ p ∈ d, p.1 = k → f p.2 = p.2) :
    mapAtKey d k f = d := by
  induction d with
  | nil => rfl
  | cons q t ih =>
      have iht := ih fun p hp => h p (by simp [hp])
      by_cases hq : q.1 = k
      · simp only [mapAtKey, List.map_cons, if_pos hq, h q (by simp) hq]
        simp only [mapAtKey] at iht
        rw [iht]
      · simp only [mapAtKey, List.map_cons, if_neg hq]
        simp only [mapAtKey] at iht
        rw [iht]

theorem lookupA_mem_of_nodup (d : List (Str × Annotation)) (h : nodupKeys d)
    (p : Str × Annotation) (hp : p ∈ d) : lookupA d p.1 = some p.2 := by
  induction d with
  | nil => cases hp
  | cons q t ih =>
      rcases List.mem_cons.mp hp with rfl | hpt
      · simp [lookupA]
      · have hq : ¬ q.1 = p.1 := by
          intro hqe
          unfold nodupKeys at h
          rw [List.map_cons, List.nodup_cons] at h
          exact h.1 (hqe ▸ List.mem_map_of_mem Prod.fst hpt)
        rw [lookupA, if_neg hq]
        exact ih (by
          unfold nodupKeys at *
          rw [List.map_cons, List.nodup_cons] at h
          exact h.2) hpt

/-- Claim C4: save_annotation creates the entry if absent with unset
fields defaulting to the empty string and applies only the provided
fields, leaving a non-provided field's existing value unchanged; from an
empty store, upserting hash abc123 with category Food yields exactly the
single-entry mapping abc123 to category Food, empty comment. -/
theorem save_annotation_upsert (file : List (Str × Annotation)) (hsh : Str)
    (cat com : Option Str) :
    lookupA ( save_annotation file hsh cat com) hsh =
      some ⟨cat.getD ((lookupA (load_annotations file) hsh).getD ⟨[], []⟩).category,
            com.getD ((lookupA (load_annotations file) hsh).getD ⟨[], []⟩).comment⟩ ∧
    save_annotation [] ['a', 'b', 'c', '1', '2', '3'] (some ['F', 'o', 'o', 'd']) none =
      [(['a', 'b', 'c', '1', '2', '3'], ⟨['F', 'o', 'o', 'd'], []⟩)] :=
  ⟨lookupA_save file hsh cat com, by decide⟩

/-- Claim C10: save_annotation leaves the stored annotation of every hash
other than the written one unchanged: the full-file rewrite preserves all
other entries' category and comment values exactly. -/
theorem save_annotation_frame (file : List (Str × Annotation)) (hsh h' : Str)
    (cat com : Option Str) (hne : h' ≠ hsh) :
    lookupA ( save_annotation file hsh cat com) h' =
      lookupA (load_annotations file) h' := by
  unfold save_annotation
  have h1 : lookupA (if (lookupA (load_annotations file) hsh).isSome then
      load_annotations file else load_annotations file ++ [(hsh, ⟨[], []⟩)]) h' =
      lookupA (load_annotations file) h' := by
    by_cases hs : (lookupA (load_annotations file) hsh).isSome = true
    · rw [if_pos hs]
    · rw [if_neg hs, lookupA_append_other _ _ _ _ hne]
  cases cat with
  | none =>
      cases com with
      | none => exact h1
      | some c2 => rw [lookupA_mapAtKey_other _ _ _ _ hne]; exact h1
  | some c =>
      cases com with
      | none => rw [lookupA_mapAtKey_other _ _ _ _ hne]; exact h1
      | some c2 =>
          rw [lookupA_mapAtKey_other _ _ _ _ hne, lookupA_mapAtKey_other _ _ _ _ hne]
          exact h1

/-- Witness for C10 at a concrete store: writing under hash x leaves the
entry stored under hash k untouched. -/
theorem save_annotation_frame_witness :
    lookupA ( save_annotation [(['k'], ⟨['a'], ['b']⟩)] ['x'] (some ['F']) none) ['k'] =
      lookupA (load_annotations [(['k'], ⟨['a'], ['b']⟩)]) ['k'] :=
  save_annotation_frame [(['k'], ⟨['a'], ['b']⟩)] ['x'] ['k'] (some ['F']) none (by decide)

/-- Claim C5: the upsert is idempotent — writing the same category twice
yields the same stored rows as writing it once — and field-preserving: a
later comment-only upsert keeps the previously written category. -/
theorem save_annotation_idempotent (file : List (Str × Annotation)) (hsh c x : Str) :
    save_annotation ( save_annotation file hsh (some c) none) hsh (some c) none =
      save_annotation file hsh (some c) none ∧
    lookupA ( save_annotation ( save_annotation file hsh (some c) none) hsh none (some x))
        hsh = some ⟨c, x⟩ := by
  have hnd := nodupKeys_save file hsh (some c) none
  have hload : load_annotations ( save_annotation file hsh (some c) none) =
      save_annotation file hsh (some c) none :=
    load_annotations_of_nodup _ hnd
  have hr := lookupA_save file hsh (some c) none
  constructor
  · conv_lhs => rw [ save_annotation]
    rw [hload]
    have hpres : (lookupA ( save_annotation file hsh (some c) none) hsh).isSome = true := by
      rw [hr]
      rfl
    rw [if_pos hpres]
    apply mapAtKey_eq_self
    intro p hp hpk
    have hmem := lookupA_mem_of_nodup _ hnd p hp
    rw [hpk, hr] at hmem
    have h2 := Option.some.inj hmem
    rw [← h2]
    rfl
  · rw [lookupA_save, hload, hr]
    rfl

/-- Splitting a sum of rationals by sign: the positive part plus the
negative part equals the whole sum (zero elements contribute to neither
filter but add nothing to the sum). -/
theorem sum_pos_add_sum_neg (l : List Rat) :
    (l.filter fun a => decide (0 < a)).sum + (l.filter fun a => decide (a < 0)).sum = l.sum := by
  induction l with
  | nil => simp
  | cons a t ih =>
      rcases lt_trichotomy (0 : Rat) a with h | h | h
      · have h1 : decide ((0 : Rat) < a) = true := decide_eq_true h
        have h2 : decide (a < (0 : Rat)) = false := decide_eq_false (not_lt.mpr h.le)
        simp only [List.filter_cons, h1, h2, Bool.false_eq_true, if_true, if_false,
          List.sum_cons]
        rw [← ih]
        ring
      · have h1 : decide ((0 : Rat) < a) = false := decide_eq_false (by rw [← h]; exact lt_irrefl 0)
        have h2 : decide (a < (0 : Rat)) = false := decide_eq_false (by rw [← h]; exact lt_irrefl 0)
        simp only [List.filter_cons, h1, h2, Bool.false_eq_true, if_false, List.sum_cons]
        rw [← h, ih]
        ring
      · have h1 : decide ((0 : Rat) < a) = false := decide_eq_false (not_lt.mpr h.le)
        have h2 : decide (a < (0 : Rat)) = true := decide_eq_true h
        simp only [List.filter_cons, h1, h2, Bool.false_eq_true, if_true, if_false,
          List.sum_cons]
        rw [← ih]
        ring

theorem sum_buckets_identity (bs : List Bucket)
    (h : ∀ b ∈ bs, b.net = b.income + b.expenses) :
    (bs.map Bucket.income).sum + (bs.map Bucket.expenses).sum = (bs.map Bucket.net).sum := by
  induction bs with
  | nil => simp
  | cons b t ih =>
      simp only [List.map_cons, List.sum_cons]
      rw [h b (by simp), ← ih fun b hb => h b (by simp [hb])]
      ring

theorem qadd_eq_add (x y : Rat) : qadd x y = x + y := by
  unfold qadd
  rw [Rat.mkRat_eq_div]
  have hx : ((x.den : Rat)) ≠ 0 := by
    exact_mod_cast x.den_pos.ne'
  have hy : ((y.den : Rat)) ≠ 0 := by
    exact_mod_cast y.den_pos.ne'
  have ex : (x.num : Rat) = x * (x.den : Rat) := (div_eq_iff hx).mp (Rat.num_div_den x)
  have ey : (y.num : Rat) = y * (y.den : Rat) := (div_eq_iff hy).mp (Rat.num_div_den y)
  rw [div_eq_iff (by push_cast; exact mul_ne_zero hx hy)]
  push_cast
  rw [ex, ey]
  ring

/-- Counterexample to Claim C3: the program sums float64 amounts, and the
claimed exact identity fails by rounding.  For one bucket holding the
binary64 amounts of 0.1, -0.2 and 0.3, net is
7205759403792793 / 2 ^ 55 (displayed 0.19999999999999998) while income
plus expenses is 0.2's double — unequal exactly and as a float addition. -/
theorem float_bucket_identity_counterexample :
    bucketFor
        [⟨some ⟨2024, 1, 5⟩, roundD (mkRat 1 10), [], [], []⟩,
         ⟨some ⟨2024, 1, 6⟩, roundD (mkRat (-2) 10), [], [], []⟩,
         ⟨some ⟨2024, 1, 7⟩, roundD (mkRat 3 10), [], [], []⟩] (2024, 1) ∈
      get_monthly_summary
        [⟨some ⟨2024, 1, 5⟩, roundD (mkRat 1 10), [], [], []⟩,
         ⟨some ⟨2024, 1, 6⟩, roundD (mkRat (-2) 10), [], [], []⟩,
         ⟨some ⟨2024, 1, 7⟩, roundD (mkRat 3 10), [], [], []⟩] ∧
    (bucketFor
        [⟨some ⟨2024, 1, 5⟩, roundD (mkRat 1 10), [], [], []⟩,
         ⟨some ⟨2024, 1, 6⟩, roundD (mkRat (-2) 10), [], [], []⟩,
         ⟨some ⟨2024, 1, 7⟩, roundD (mkRat 3 10), [], [], []⟩] (2024, 1)).net =
      mkRat 7205759403792793 36028797018963968 ∧
    (bucketFor
        [⟨some ⟨2024, 1, 5⟩, roundD (mkRat 1 10), [], [], []⟩,
         ⟨some ⟨2024, 1, 6⟩, roundD (mkRat (-2) 10), [], [], []⟩,
         ⟨some ⟨2024, 1, 7⟩, roundD (mkRat 3 10), [], [], []⟩] (2024, 1)).income +
      (bucketFor
        [⟨some ⟨2024, 1, 5⟩, roundD (mkRat 1 10), [], [], []⟩,
         ⟨some ⟨2024, 1, 6⟩, roundD (mkRat (-2) 10), [], [], []⟩,
         ⟨some ⟨2024, 1, 7⟩, roundD (mkRat 3 10), [], [], []⟩] (2024, 1)).expenses =
      mkRat 3602879701896397 18014398509481984 ∧
    (bucketFor
        [⟨some ⟨2024, 1, 5⟩, roundD (mkRat 1 10), [], [], []⟩,
         ⟨some ⟨2024, 1, 6⟩, roundD (mkRat (-2) 10), [], [], []⟩,
         ⟨some ⟨2024, 1, 7⟩, roundD (mkRat 3 10), [], [], []⟩] (2024, 1)).net ≠
      (bucketFor
        [⟨some ⟨2024, 1, 5⟩, roundD (mkRat 1 10), [], [], []⟩,
         ⟨some ⟨2024, 1, 6⟩, roundD (mkRat (-2) 10), [], [], []⟩,
         ⟨some ⟨2024, 1, 7⟩, roundD (mkRat 3 10), [], [], []⟩] (2024, 1)).income +
      (bucketFor
        [⟨some ⟨2024, 1, 5⟩, roundD (mkRat 1 10), [], [], []⟩,
         ⟨some ⟨2024, 1, 6⟩, roundD (mkRat (-2) 10), [], [], []⟩,
         ⟨some ⟨2024, 1, 7⟩, roundD (mkRat 3 10), [], [], []⟩] (2024, 1)).expenses := by
  refine ⟨?_, by decide, ?_, ?_⟩
  · rw [show get_monthly_summary
        [⟨some ⟨2024, 1, 5⟩, roundD (mkRat 1 10), [], [], []⟩,
         ⟨some ⟨2024, 1, 6⟩, roundD (mkRat (-2) 10), [], [], []⟩,
         ⟨some ⟨2024, 1, 7⟩, roundD (mkRat 3 10), [], [], []⟩] =
      [bucketFor
        [⟨some ⟨2024, 1, 5⟩, roundD (mkRat 1 10), [], [], []⟩,
         ⟨some ⟨2024, 1, 6⟩, roundD (mkRat (-2) 10), [], [], []⟩,
         ⟨some ⟨2024, 1, 7⟩, roundD (mkRat 3 10), [], [], []⟩] (2024, 1)] from rfl]
    exact List.mem_singleton_self _
  · rw [← qadd_eq_add]
    decide
  · rw [← qadd_eq_add]
    decide

/-- Claim C3 as amended: per bucket, income, expenses and net are the
float64 sums (sequential correctly rounded additions) of the positive,
negative and all amounts of the group; net equals income plus expenses
whenever those three float sums incur no rounding (then they agree with
the exact sums), and the identity — per bucket and summed over buckets —
holds unconditionally under the spec's exact-decimal idealization of the
same grouping; with float rounding it fails in general (see the
counterexample).  Zero amounts enter neither income nor expenses but are
summed into net in both readings. -/
theorem monthly_summary_identities_amended :
    (∀ (txs : List Tx) (m : Nat × Nat),
      bucketFor txs m =
        ⟨m, fsum ((groupAmounts txs m).filter fun a => decide (0 < a)),
          fsum ((groupAmounts txs m).filter fun a => decide (a < 0)),
          fsum (groupAmounts txs m)⟩) ∧
    (∀ (txs : List Tx) (m : Nat × Nat),
      fsum (groupAmounts txs m) = (groupAmounts txs m).sum →
      fsum ((groupAmounts txs m).filter fun a => decide (0 < a)) =
        ((groupAmounts txs m).filter fun a => decide (0 < a)).sum →
      fsum ((groupAmounts txs m).filter fun a => decide (a < 0)) =
        ((groupAmounts txs m).filter fun a => decide (a < 0)).sum →
      (bucketFor txs m).net = (bucketFor txs m).income + (bucketFor txs m).expenses) ∧
    ∀ txs : List Tx,
      (∀ b ∈ ideal_monthly_summary txs, b.net = b.income + b.expenses) ∧
      ((ideal_monthly_summary txs).map Bucket.income).sum +
          ((ideal_monthly_summary txs).map Bucket.expenses).sum =
        ((ideal_monthly_summary txs).map Bucket.net).sum := by
  refine ⟨fun txs m => rfl, fun txs m hn hp hq => ?_, fun txs => ?_⟩
  · show fsum (groupAmounts txs m) =
      fsum ((groupAmounts txs m).filter fun a => decide (0 < a)) +
        fsum ((groupAmounts txs m).filter fun a => decide (a < 0))
    rw [hn, hp, hq]
    exact (sum_pos_add_sum_neg _).symm
  · have h1 : ∀ b ∈ ideal_monthly_summary txs, b.net = b.income + b.expenses := by
      intro b hb
      rcases List.mem_map.mp hb with ⟨m, _, rfl⟩
      exact (sum_pos_add_sum_neg _).symm
    exact ⟨h1, sum_buckets_identity _ h1⟩

/-- Witness for the amended C3 at a one-transaction ledger: its single
float sum rounds nothing, so the bucket identity holds there. -/
theorem monthly_summary_identities_amended_witness :
    (bucketFor [⟨some ⟨2024, 1, 15⟩, 5, [], [], []⟩] (2024, 1)).net =
      (bucketFor [⟨some ⟨2024, 1, 15⟩, 5, [], [], []⟩] (2024, 1)).income +
        (bucketFor [⟨some ⟨2024, 1, 15⟩, 5, [], [], []⟩] (2024, 1)).expenses := by
  apply monthly_summary_identities_amended.2.1
  · rw [show groupAmounts [⟨some ⟨2024, 1, 15⟩, 5, [], [], []⟩] (2024, 1) = [(5 : Rat)]
      from by decide, List.sum_singleton]
    decide
  · rw [show groupAmounts [⟨some ⟨2024, 1, 15⟩, 5, [], [], []⟩] (2024, 1) = [(5 : Rat)]
      from by decide,
      show ([(5 : Rat)].filter fun a => decide (0 < a)) = [(5 : Rat)] from by decide,
      List.sum_singleton]
    decide
  · rw [show groupAmounts [⟨some ⟨2024, 1, 15⟩, 5, [], [], []⟩] (2024, 1) = [(5 : Rat)]
      from by decide,
      show ([(5 : Rat)].filter fun a => decide (a < 0)) = ([] : List Rat) from by decide]
    decide

/-- Counterexample to Claim C6: a nonempty ledger whose date column is
absent does not fail validation — the loader synthesizes the column as
empty strings, the validation passes, and the row loads with the NaT
sentinel date. -/
theorem missing_column_loads_counterexample :
    load_transactions [] ⟨1, [(colAmount, [some ['1']])]⟩ =
      .ok [⟨none, 1, [], [], []⟩] := by
  decide

/-- Claim C6 as amended: the loader fails with the ValueError naming
exactly the required columns whose post-synthesis cells are entirely null
(a column absent from the header is first synthesized as empty strings
and, for a ledger with at least one row, no longer triggers the check);
when the list is nonempty the whole import aborts with it. -/
theorem missing_columns_validation (aliases : List (Str × Str)) (df : DF)
    (h : missingOf (ensureExpected (dfRename aliases df)) ≠ []) :
    load_transactions aliases df =
      .error (.missingCols (missingOf (ensureExpected (dfRename aliases df)))) := by
  rw [show load_transactions aliases df =
    (if (missingOf (ensureExpected (dfRename aliases df))).isEmpty then
      loadRows (ensureExpected (dfRename aliases df))
    else .error (.missingCols (missingOf (ensureExpected (dfRename aliases df))))) from rfl]
  rw [isEmpty_false_of_ne_nil _ h]
  rfl

/-- Witness for the amended C6: an amount column present in the header but
entirely empty is reported, by name, as missing. -/
theorem missing_columns_validation_witness :
    load_transactions []
        ⟨1, [(colDate, [some ['1', '5', '.', '0', '1', '.', '2', '0', '2', '4']]),
          (colAmount, [none])]⟩ =
      .error (.missingCols (missingOf (ensureExpected (dfRename []
        ⟨1, [(colDate, [some ['1', '5', '.', '0', '1', '.', '2', '0', '2', '4']]),
          (colAmount, [none])]⟩)))) ∧
    missingOf (ensureExpected (dfRename []
        ⟨1, [(colDate, [some ['1', '5', '.', '0', '1', '.', '2', '0', '2', '4']]),
          (colAmount, [none])]⟩)) = [colAmount] :=
  ⟨missing_columns_validation [] _ (by decide), by decide⟩

/-- Counterexample to Claim C7: on a ledger with a header row and zero
transaction rows, summarize does not succeed with a zero-count summary:
the empty required columns count as entirely null (isnull().all() is
vacuously true), so the loader raises the missing-columns ValueError and
the endpoint fails. -/
theorem zero_row_summary_counterexample :
    get_summary [] ⟨0, [(colDate, []), (colAmount, [])]⟩ =
      .error (.missingCols [colDate, colAmount]) ∧
    get_summary [] ⟨0, [(colDate, []), (colAmount, [])]⟩ ≠
      .ok ⟨0, none, none, 0, 0, 0, []⟩ := by
  constructor
  · decide
  · decide

/-- Claim C7 as amended: a header-only zero-row ledger makes summarize
fail with the missing-required-columns validation error (both empty
columns are vacuously entirely-null); the aggregator itself, given zero
transactions, does return an empty result without error. -/
theorem zero_row_summary_amended :
    get_summary [] ⟨0, [(colDate, []), (colAmount, [])]⟩ =
      .error (.missingCols [colDate, colAmount]) ∧
    get_monthly_summary [] = [] ∧ monthsOf [] = [] := by
  refine ⟨by decide, rfl, rfl⟩

theorem mapM_ok_of_forall {ε α β : Type} (f : α → Except ε β) (l : List α)
    (h : ∀ x ∈ l, ∃ y, f x = .ok y) : ∃ ys, l.mapM f = .ok ys := by
  induction l with
  | nil => exact ⟨[], rfl⟩
  | cons a t ih =>
      obtain ⟨y, hy⟩ := h a (by simp)
      obtain ⟨ys, hys⟩ := ih fun x hx => h x (by simp [hx])
      refine ⟨y :: ys, ?_⟩
      rw [List.mapM_cons, hy, hys]
      rfl

theorem mkDetail_ok (ann : List (Str × Annotation)) (isIncome : Bool) (tx : Tx)
    (h : tx.date.isSome = true) : ∃ y, mkDetail ann isIncome tx = .ok y := by
  cases htx : tx.date with
  | none =>
      rw [htx] at h
      cases h
  | some d =>
      apply Exists.intro
      simp only [mkDetail, strftimeMD, htx]
      rfl

theorem monthDetail_ok (ann : List (Str × Annotation)) (txs : List Tx) (m : Str)
    (h : ∀ tx ∈ txs, tx.amount ≠ 0 → tx.date.isSome = true) :
    ∃ y, monthDetail ann txs m = .ok y := by
  obtain ⟨inc, hinc⟩ := mapM_ok_of_forall (mkDetail ann true)
    (((txs.filter fun tx => decide (ymStr tx = m)).filter fun tx => decide (0 < tx.amount)))
    (fun tx hx => by
      apply mkDetail_ok
      have h1 := List.mem_filter.mp hx
      have h2 := List.mem_filter.mp h1.1
      exact h tx h2.1 (ne_of_gt (of_decide_eq_true h1.2)))
  obtain ⟨exp, hexp⟩ := mapM_ok_of_forall (mkDetail ann false)
    (((txs.filter fun tx => decide (ymStr tx = m)).filter fun tx => decide (tx.amount < 0)))
    (fun tx hx => by
      apply mkDetail_ok
      have h1 := List.mem_filter.mp hx
      have h2 := List.mem_filter.mp h1.1
      exact h tx h2.1 (ne_of_lt (of_decide_eq_true h1.2)))
  refine ⟨(m, ⟨inc, exp⟩), ?_⟩
  simp only [monthDetail, hinc, hexp]

theorem filterMap_ymOf_isSome (txs : List Tx) :
    (txs.filter fun tx => tx.date.isSome).filterMap ymOf = txs.filterMap ymOf := by
  induction txs with
  | nil => rfl
  | cons tx t ih =>
      cases htx : tx.date with
      | none =>
          have hy : ymOf tx = none := by simp [ymOf, htx]
          simp only [List.filter_cons, htx, Option.isSome_none, Bool.false_eq_true, if_false,
            List.filterMap_cons, hy, ih]
      | some d =>
          have hy : ymOf tx = some (d.year, d.month) := by simp [ymOf, htx]
          simp only [List.filter_cons, htx, Option.isSome_some, if_true,
            List.filterMap_cons, hy, ih]

theorem filter_ym_drop_none (m : Nat × Nat) (txs : List Tx) :
    ((txs.filter fun tx => tx.date.isSome).filter fun tx => decide (ymOf tx = some m)) =
      txs.filter fun tx => decide (ymOf tx = some m) := by
  induction txs with
  | nil => rfl
  | cons tx t ih =>
      cases htx : tx.date with
      | none =>
          have hy : decide (ymOf tx = some m) = false := by
            simp [ymOf, htx]
          simp only [List.filter_cons, htx, Option.isSome_none, Bool.false_eq_true, if_false,
            hy, ih]
      | some d =>
          simp only [List.filter_cons, htx, Option.isSome_some, if_true, List.filter_cons, ih]

/-- Rows whose date is the NaT sentinel are silently dropped by the
monthly aggregation (pandas groupby ignores null keys). -/
theorem get_monthly_summary_drops_nat (txs : List Tx) :
    get_monthly_summary txs =
      get_monthly_summary (txs.filter fun tx => tx.date.isSome) := by
  unfold get_monthly_summary monthsOf
  rw [filterMap_ymOf_isSome]
  apply List.map_congr_left
  intro m _
  unfold bucketFor groupAmounts
  rw [filter_ym_drop_none]

/-- Counterexample to Claim C9: unparseable dates do become the NaT
sentinel, but the per-month transaction detail assembly then raises when
it formats that sentinel: a single income row with an unparseable date
makes prepare_transaction_details raise the NaT strftime ValueError
instead of succeeding. -/
theorem date_sentinel_counterexample :
    to_datetime_dayfirst ['g', 'a', 'r', 'b', 'a', 'g', 'e'] = none ∧
    prepare_transaction_details [⟨none, 5, [], [], []⟩] [] = .error .natStrftime := by
  constructor
  · decide
  · decide

/-- Claim C9 as amended: ambiguous numeric dates are parsed day-first
(03/04/2024 is April 3, 2024); unparseable dates coerce to the NaT
sentinel rather than raising and such rows are silently dropped by the
monthly aggregation; the detail assembly, however, raises on a NaT date
of any income or expense row, and succeeds whenever every
nonzero-amount row has a real date (zero-amount NaT rows are skipped by
both direction filters and do not raise). -/
theorem date_parsing_amended :
    to_datetime_dayfirst ['0', '3', '/', '0', '4', '/', '2', '0', '2', '4'] =
      some ⟨2024, 4, 3⟩ ∧
    (∀ txs : List Tx, get_monthly_summary txs =
      get_monthly_summary (txs.filter fun tx => tx.date.isSome)) ∧
    ∀ (txs : List Tx) (file : List (Str × Annotation)),
      (∀ tx ∈ txs, tx.amount ≠ 0 → tx.date.isSome = true) →
      ∃ r, prepare_transaction_details txs file = .ok r := by
  refine ⟨by decide, get_monthly_summary_drops_nat, ?_⟩
  intro txs file h
  exact mapM_ok_of_forall _ _ fun m _ => monthDetail_ok (load_annotations file) txs m h

/-- Witness for the amended C9: with no transactions (hence no
nonzero-amount row with a NaT date) the detail assembly succeeds. -/
theorem date_parsing_amended_witness :
    ∃ r, prepare_transaction_details [] [] = .ok r :=
  date_parsing_amended.2.2 [] [] (by simp)

end PFT

